import Mathlib

/-! Shallow embedding of the jukebox server's room state machine
(src/backend/main.py): queue items, playback state, the websocket command
handlers, the track-advance helpers, host succession, and the ingest
completion path.  Wall-clock instants and positions are modelled as exact
rationals; Python dict keys that may be absent are modelled with Option,
and Python truthiness of strings/numbers is spelled out explicitly. -/

/-- Role of a user in a room: "host" | "moderator" | "listener". -/
inductive Role where
  | host
  | moderator
  | listener
  deriving DecidableEq, Repr

/-- A queue item / track, mirroring the dicts built in add_to_queue and
add_pending_download.  The boolean flags default to false when the key is
absent (Python item.get(key, False)), so plain Bool suffices. -/
structure QItem where
  id : String
  title : String
  artist : String
  url : String
  artwork : Option String
  source : String
  duration : Option ℚ
  isPending : Bool
  isSuggested : Bool
  votes : Int
  video_id : Option String
  deriving DecidableEq, Repr

/-- The per-room playback state dict (Room.state in the source). -/
structure PlaybackState where
  track : Option QItem
  is_playing : Bool
  start_time : Option ℚ
  position : ℚ
  duration : Option ℚ
  deriving DecidableEq, Repr

/-- The default state a fresh Room is created with. -/
def initialState : PlaybackState :=
  { track := none, is_playing := false, start_time := none, position := 0, duration := none }

/-- Playback/queue part of a Room (users are modelled separately below). -/
structure Room where
  queue : List QItem
  state : PlaybackState
  deriving DecidableEq, Repr

/-- Server-to-client envelopes relevant to the claims (payload fields kept). -/
inductive Env where
  | play (start_time : ℚ)
  | pause (position : ℚ)
  | seek (position : ℚ) (is_playing : Bool)
  | set_track (track : Option QItem) (is_playing : Bool)
  | next_track (track : QItem)
  | previous_track (track : QItem)
  | queue_sync (queue : List QItem)
  | user_info (name : String) (role : Role) (is_host : Bool) (is_moderator : Bool)
  | users_sync (users : List (String × Role))
  | error (message : String)
  deriving DecidableEq, Repr

/-- Where an envelope goes: ws.send_json to the command's sender, a
room.broadcast to all members, or a send to one specific connection. -/
inductive Dest where
  | sender
  | all
  | conn (w : Nat)
  deriving DecidableEq, Repr

abbrev Msg := Dest × Env

/-- Room.is_host_or_mod: the sender's role is host or moderator. -/
def is_host_or_mod (role : Role) : Bool :=
  role == Role.host || role == Role.moderator

/-- The "play" branch of ws_endpoint: permission check, then
is_playing := true, start_time := now - position, broadcast play. -/
def handle_play (role : Role) (now : ℚ) (r : Room) : Room × List Msg :=
  if !is_host_or_mod role then
    (r, [(Dest.sender, Env.error "Only hosts and moderators can control playback")])
  else
    let st := now - r.state.position
    ({ r with state := { r.state with is_playing := true, start_time := some st } },
     [(Dest.all, Env.play st)])

/-- The "pause" branch of ws_endpoint: if playing, position := now - start_time
and is_playing := false (start_time is left as it was); the pause envelope is
broadcast either way with the resulting position.  When is_playing is true the
source reads start_time as a number (a None there would raise), so the getD
default is never reached in any reachable state. -/
def handle_pause (role : Role) (now : ℚ) (r : Room) : Room × List Msg :=
  if !is_host_or_mod role then
    (r, [(Dest.sender, Env.error "Only hosts and moderators can control playback")])
  else
    let s :=
      if r.state.is_playing then
        { r.state with position := now - r.state.start_time.getD 0, is_playing := false }
      else r.state
    ({ r with state := s }, [(Dest.all, Env.pause s.position)])

/-- The "seek" branch of ws_endpoint: position := client value; if playing,
start_time := now - position; broadcast seek. -/
def handle_seek (role : Role) (now new_pos : ℚ) (r : Room) : Room × List Msg :=
  if !is_host_or_mod role then
    (r, [(Dest.sender, Env.error "Only hosts and moderators can control playback")])
  else
    let s := { r.state with
               position := new_pos,
               start_time := if r.state.is_playing then some (now - new_pos)
                             else r.state.start_time }
    ({ r with state := s }, [(Dest.all, Env.seek new_pos s.is_playing)])

/-- Availability filter used by the advance helpers: not pending, not a
suggestion, and a truthy (nonempty) url. -/
def isAvailable (t : QItem) : Bool :=
  !t.isPending && !t.isSuggested && t.url != ""

/-- Python next((i for i, t in enumerate(queue) if t.id == tid), -1),
with the -1 sentinel rendered as none. -/
def indexOfId (tid : String) : List QItem → Option Nat
  | [] => none
  | t :: ts => if t.id == tid then some 0 else (indexOfId tid ts).map (· + 1)

/-- Placeholder for list indexing defaults; indices proved in range never
produce it. -/
def defaultItem : QItem :=
  { id := "", title := "", artist := "", url := "", artwork := none, source := "",
    duration := none, isPending := false, isSuggested := false, votes := 0,
    video_id := none }

/-- The rotating for-loop of advance_to_next_track: probe n successive
positions pos, pos+1, ... (each taken mod the queue length) and return the
first available item. -/
def rotScanFrom (q : List QItem) : Nat → Nat → Option QItem
  | _, 0 => none
  | pos, n + 1 =>
    let t := q.getD (pos % q.length) defaultItem
    if isAvailable t then some t else rotScanFrom q (pos + 1) n

/-- advance_to_next_track.  The try/except in the source cannot fire on these
pure list operations.  A computed next track is installed with position reset
to 0 and playback paused, and a next-track envelope is broadcast; otherwise
nothing changes and nothing is sent. -/
def advance_to_next_track (r : Room) : Room × List Msg :=
  let nt : Option QItem :=
    match r.state.track with
    | none => if r.queue.isEmpty then none else r.queue.find? isAvailable
    | some c =>
      match indexOfId c.id r.queue with
      | some i => rotScanFrom r.queue (i + 1) r.queue.length
      | none => r.queue.find? isAvailable
  match nt with
  | none => (r, [])
  | some t =>
    ({ r with state := { track := some t, is_playing := false, start_time := none,
                         position := 0, duration := t.duration } },
     [(Dest.all, Env.next_track t)])

/-- advance_to_previous_track.  Python's (i - 1) % len on 0 <= i < len equals
(i + len - 1) % len in Nat arithmetic.  No availability filter is applied. -/
def advance_to_previous_track (r : Room) : Room × List Msg :=
  match r.state.track with
  | none => (r, [])
  | some c =>
    let pt : Option QItem :=
      match indexOfId c.id r.queue with
      | some i =>
        some (r.queue.getD ((i + r.queue.length - 1) % r.queue.length) defaultItem)
      | none => r.queue.getLast?
    match pt with
    | none => (r, [])
    | some t =>
      ({ r with state := { track := some t, is_playing := false, start_time := none,
                           position := 0, duration := t.duration } },
       [(Dest.all, Env.previous_track t)])

/-- The "next-track" branch of ws_endpoint: permission check then advance. -/
def handle_next_track (role : Role) (r : Room) : Room × List Msg :=
  if !is_host_or_mod role then
    (r, [(Dest.sender, Env.error "Only hosts and moderators can skip tracks")])
  else advance_to_next_track r

/-- The "previous-track" branch of ws_endpoint. -/
def handle_previous_track (role : Role) (r : Room) : Room × List Msg :=
  if !is_host_or_mod role then
    (r, [(Dest.sender, Env.error "Only hosts and moderators can skip tracks")])
  else advance_to_previous_track r

/-- set_first_available_track: when there is no current track, install the
first available queue item (paused, position 0) and broadcast set_track. -/
def set_first_available_track (r : Room) : Room × List Msg :=
  match r.state.track with
  | some _ => (r, [])
  | none =>
    match r.queue.find? isAvailable with
    | none => (r, [])
    | some t =>
      ({ r with state := { track := some t, is_playing := false, start_time := none,
                           position := 0, duration := t.duration } },
       [(Dest.all, Env.set_track (some t) false)])

/-- The "delete_item" branch of ws_endpoint.  The source rebuilds the queue by
list comprehension keeping every item whose id differs, then broadcasts
queue_sync; when the deleted id was the current track's id it either advances
(some available item remains) or clears the state and broadcasts a null
set_track. -/
def handle_delete_item (role : Role) (item_id : String) (r : Room) : Room × List Msg :=
  if !is_host_or_mod role then
    (r, [(Dest.sender, Env.error "Only hosts and moderators can delete items")])
  else if item_id == "" then (r, [])
  else
    let is_current := match r.state.track with
      | some c => c.id == item_id
      | none => false
    let q := r.queue.filter (fun it => it.id != item_id)
    let r1 := { r with queue := q }
    let m1 : List Msg := [(Dest.all, Env.queue_sync q)]
    if is_current then
      if (q.filter isAvailable).isEmpty then
        ({ r1 with state := { track := none, is_playing := false, start_time := none,
                              position := 0, duration := none } },
         m1 ++ [(Dest.all, Env.set_track none false)])
      else
        let s := advance_to_next_track r1
        (s.1, m1 ++ s.2)
    else (r1, m1)

/-- Swap queue positions k and k+1 (the Python tuple swap). -/
def swapAdj (q : List QItem) (k : Nat) : List QItem :=
  (q.set k (q.getD (k + 1) defaultItem)).set (k + 1) (q.getD k defaultItem)

/-- The "reorder_item" branch of ws_endpoint: falsy item_id or direction is
ignored; an id present in the queue always triggers a queue_sync broadcast,
whether or not the in-range direction test lets the swap happen. -/
def handle_reorder_item (role : Role) (item_id direction : String) (r : Room) :
    Room × List Msg :=
  if !is_host_or_mod role then
    (r, [(Dest.sender, Env.error "Only hosts and moderators can reorder items")])
  else if item_id == "" || direction == "" then (r, [])
  else
    match indexOfId item_id r.queue with
    | none => (r, [])
    | some i =>
      let q :=
        if direction == "up" && decide (0 < i) then swapAdj r.queue (i - 1)
        else if direction == "down" && decide (i < r.queue.length - 1) then swapAdj r.queue i
        else r.queue
      ({ r with queue := q }, [(Dest.all, Env.queue_sync q)])

/-- Terminal outcome of awaiting a download task: success with the result
record's url/artwork/duration, a timeout, another failure, or the task id
missing from the task map. -/
inductive DlOutcome where
  | success (url : String) (artwork : Option String) (duration : Option ℚ)
  | timeout
  | failure
  | no_task
  deriving DecidableEq, Repr

/-- The for-item-in-queue / break loops of start_pending_download: update the
first item matching p, leave everything else. -/
def updateFirst (p : QItem → Bool) (f : QItem → QItem) : List QItem → List QItem
  | [] => []
  | t :: ts => if p t then f t :: ts else t :: updateFirst p f ts

/-- Success-path patch of a queue item: overwrite url; update artwork only
when the result carries a truthy (nonempty) one; set
duration := max(1, reported - 1.25) only when the reported duration is truthy
(present and nonzero); clear isPending; drop video_id. -/
def patchSuccess (u : String) (a : Option String) (d : Option ℚ) (it : QItem) : QItem :=
  { it with
    url := u,
    artwork := match a with
      | some s => if s != "" then some s else it.artwork
      | none => it.artwork,
    duration := match d with
      | some x => if x != 0 then some (max 1 (x - 5/4)) else it.duration
      | none => it.duration,
    isPending := false,
    video_id := none }

/-- Timeout/failure patch: clear the url and the pending flag. -/
def patchFailed (it : QItem) : QItem :=
  { it with isPending := false, url := "" }

/-- The process-wide active_downloads_per_ip dict, as an association list. -/
abbrev InFlight := List (String × String)

/-- Python dict assignment m[k] = v. -/
def mapSet (m : InFlight) (k v : String) : InFlight :=
  if m.any (fun p => p.1 == k) then m.map (fun p => if p.1 == k then (k, v) else p)
  else m ++ [(k, v)]

/-- Python del m[k] (guarded by the membership test in the source). -/
def mapErase (m : InFlight) (k : String) : InFlight :=
  m.filter (fun p => p.1 != k)

/-- Python k in m. -/
def mapHas (m : InFlight) (k : String) : Bool :=
  m.any (fun p => p.1 == k)

/-- start_pending_download as a pure transformer over the in-flight map and
the room, parameterized by the awaited task's terminal outcome.  The entry
for client_ip is written on entry and released in the finally block on every
path; on success the queue item is patched and, when the room has no current
track, set_first_available_track may promote it. -/
def start_pending_download (fl : InFlight) (r : Room) (queue_item_id client_ip : String)
    (outcome : DlOutcome) : InFlight × Room × List Msg :=
  let fl1 := mapSet fl client_ip queue_item_id
  let step : Room × List Msg :=
    match outcome with
    | DlOutcome.success u a d =>
      let q := updateFirst (fun it => it.id == queue_item_id) (patchSuccess u a d) r.queue
      let r1 : Room := { r with queue := q }
      let m1 : List Msg := [(Dest.all, Env.queue_sync q)]
      match r1.state.track with
      | none =>
        let s := set_first_available_track r1
        (s.1, m1 ++ s.2)
      | some _ => (r1, m1)
    | DlOutcome.timeout =>
      let q := updateFirst (fun it => it.id == queue_item_id) patchFailed r.queue
      ({ r with queue := q }, [(Dest.all, Env.queue_sync q)])
    | DlOutcome.failure =>
      let q := updateFirst (fun it => it.id == queue_item_id) patchFailed r.queue
      ({ r with queue := q }, [(Dest.all, Env.queue_sync q)])
    | DlOutcome.no_task => (r, [])
  (mapErase fl1 client_ip, step.1, step.2)

/-- A user entry of Room.users; the websocket is a connection id, and
connected models ws.client_state.name == "CONNECTED". -/
structure UserEntry where
  ws : Nat
  name : String
  role : Role
  connected : Bool
  deriving DecidableEq, Repr

/-- User-roster part of a Room: Room.users (insertion-ordered) and
Room.host. -/
structure RoomUsers where
  users : List UserEntry
  host : Option Nat
  deriving DecidableEq, Repr

/-- Room.get_active_users, reduced to the fields the claims mention. -/
def get_active_users (ru : RoomUsers) : List (String × Role) :=
  (ru.users.filter (fun u => u.connected)).map (fun u => (u.name, u.role))

/-- Room.broadcast_users: one users_sync broadcast carrying the first page. -/
def broadcast_users (ru : RoomUsers) : List Msg :=
  [(Dest.all, Env.users_sync ((get_active_users ru).take 10))]

/-- Set the role of the user on connection w to host. -/
def promote (users : List UserEntry) (w : Nat) : List UserEntry :=
  users.map (fun u => if u.ws == w then { u with role := Role.host } else u)

/-- Room.remove_user.  Faithful to the source's control flow: the block that
sends user_info to the new host is indented inside the no-moderator fallback
(`if self.host is None and self.users:`), so when a connected moderator is
promoted the envelope is never sent, although new_host_ws is assigned there.
The trailing broadcast_users always fires for a user that was present. -/
def remove_user (ru : RoomUsers) (w : Nat) : RoomUsers × List Msg :=
  match ru.users.find? (fun u => u.ws == w) with
  | none => (ru, [])
  | some u =>
    let users1 := ru.users.filter (fun x => x.ws != w)
    if u.role == Role.host && ru.host == some w then
      match users1.find? (fun x => x.role == Role.moderator && x.connected) with
      | some m =>
        let ru2 : RoomUsers := { users := promote users1 m.ws, host := some m.ws }
        (ru2, broadcast_users ru2)
      | none =>
        if users1.isEmpty then
          let ru2 : RoomUsers := { users := users1, host := none }
          (ru2, broadcast_users ru2)
        else
          match users1.find? (fun x => x.connected) with
          | some f =>
            let ru2 : RoomUsers := { users := promote users1 f.ws, host := some f.ws }
            (ru2, (Dest.conn f.ws, Env.user_info f.name Role.host true true) ::
                  broadcast_users ru2)
          | none =>
            let ru2 : RoomUsers := { users := users1, host := none }
            (ru2, broadcast_users ru2)
    else
      let ru2 : RoomUsers := { users := users1, host := ru.host }
      (ru2, broadcast_users ru2)

/-- Spec invariant I2 on a playback state. -/
def I2 (s : PlaybackState) : Prop :=
  s.is_playing = false → s.start_time = none ∧ 0 ≤ s.position

/-- The track t is the earliest queue item passing the availability filter. -/
def firstAvailableFromStart (q : List QItem) (t : QItem) : Prop :=
  ∃ j, j < q.length ∧ t = q.getD j defaultItem ∧ isAvailable t = true ∧
    ∀ m, m < j → isAvailable (q.getD m defaultItem) = false

/-- The track t is the first available item of the rotating scan that starts
at queue index start % length and probes up to length positions. -/
def firstAvailableRot (q : List QItem) (start : Nat) (t : QItem) : Prop :=
  ∃ k, k < q.length ∧ t = q.getD ((start + k) % q.length) defaultItem ∧
    isAvailable t = true ∧
    ∀ m, m < k → isAvailable (q.getD ((start + m) % q.length) defaultItem) = false

/-- advance_to_next_track selected t: position reset to 0, playback paused,
start_time cleared, duration copied, queue untouched, next-track broadcast. -/
def advanceInstalls (r : Room) (t : QItem) : Prop :=
  advance_to_next_track r =
    ({ r with state := { track := some t, is_playing := false, start_time := none,
                         position := 0, duration := t.duration } },
     [(Dest.all, Env.next_track t)])

def rPausedExample : Room := { queue := [], state := { initialState with position := 7 } }

def rInitExample : Room := { queue := [], state := initialState }

def rPos5Example : Room := { queue := [], state := { initialState with position := 5 } }

def rPos0Example : Room := { queue := [], state := initialState }

def trkAv : QItem := { defaultItem with id := "a", url := "ua" }

def trkBv : QItem := { defaultItem with id := "b", url := "ub" }

def trkPend : QItem := { defaultItem with id := "b", url := "ub", isPending := true }

def rNextExample : Room :=
  { queue := [trkAv, trkPend], state := { initialState with track := some trkAv } }

def rAllAvailExample : Room :=
  { queue := [trkAv, trkBv], state := { initialState with track := some trkAv } }

def dupX1 : QItem := { defaultItem with id := "x", url := "u1" }

def dupX2 : QItem := { defaultItem with id := "x", url := "u2" }

def rDupExample : Room := { queue := [dupX1, dupX2], state := initialState }

def pendP : QItem :=
  { defaultItem with
    id := "p", isPending := true, duration := some 99, video_id := some "v" }

def rPendExample : Room :=
  { queue := [pendP], state := { initialState with track := some trkAv } }

def hostA : UserEntry := { ws := 0, name := "A", role := Role.host, connected := true }

def modB : UserEntry := { ws := 1, name := "B", role := Role.moderator, connected := true }

def lisB : UserEntry := { ws := 1, name := "B", role := Role.listener, connected := true }

def ruModExample : RoomUsers := { users := [hostA, modB], host := some 0 }

def ruLisExample : RoomUsers := { users := [hostA, lisB], host := some 0 }

theorem getD_eq_get (q : List QItem) (i : Nat) (h : i < q.length) :
    q.getD i defaultItem = q.get ⟨i, h⟩ := by
  simp [List.getD_eq_getElem?_getD, List.getElem?_eq_getElem h]

theorem indexOfId_some (tid : String) (q : List QItem) (i : Nat)
    (h : indexOfId tid q = some i) :
    i < q.length ∧ (q.getD i defaultItem).id = tid ∧
      ∀ k, k < i → (q.getD k defaultItem).id ≠ tid := by
  induction q generalizing i with
  | nil => simp [indexOfId] at h
  | cons t ts ih =>
    by_cases ht : t.id = tid
    · simp [indexOfId, ht] at h
      subst h
      simpa using ht
    · simp [indexOfId, ht] at h
      obtain ⟨j, hj, rfl⟩ := h
      obtain ⟨hlen, hid, hmin⟩ := ih j hj
      refine ⟨by simpa using Nat.succ_lt_succ hlen, by simpa using hid, ?_⟩
      intro k hk
      cases k with
      | zero => simpa using ht
      | succ k => simpa using hmin k (Nat.lt_of_succ_lt_succ hk)

theorem indexOfId_none (tid : String) (q : List QItem)
    (h : indexOfId tid q = none) : ∀ t ∈ q, t.id ≠ tid := by
  induction q with
  | nil => simp
  | cons t ts ih =>
    by_cases ht : t.id = tid
    · simp [indexOfId, ht] at h
    · simp [indexOfId, ht] at h
      intro x hx
      rcases List.mem_cons.mp hx with h1 | h2
      · subst h1; exact ht
      · exact ih h x h2

theorem indexOfId_found (tid : String) (q : List QItem) (t : QItem)
    (ht : t ∈ q) (hid : t.id = tid) : ∃ i, indexOfId tid q = some i := by
  cases h : indexOfId tid q with
  | some i => exact ⟨i, rfl⟩
  | none => exact absurd hid (indexOfId_none tid q h t ht)

theorem indexOfId_not_found (tid : String) (q : List QItem)
    (h : ∀ t ∈ q, t.id ≠ tid) : indexOfId tid q = none := by
  induction q with
  | nil => rfl
  | cons t ts ih =>
    have ht : t.id ≠ tid := h t (by simp)
    simp only [indexOfId, beq_iff_eq, ht, if_false]
    rw [ih fun x hx => h x (by simp [hx])]
    rfl

theorem getD_mem (q : List QItem) (j : Nat) (h : j < q.length) :
    q.getD j defaultItem ∈ q := by
  rw [getD_eq_get q j h]
  exact q.get_mem j h

theorem find?_first (p : QItem → Bool) (q : List QItem) (t : QItem)
    (h : q.find? p = some t) :
    ∃ j, j < q.length ∧ q.getD j defaultItem = t ∧ p t = true ∧
      ∀ k, k < j → p (q.getD k defaultItem) = false := by
  induction q with
  | nil => simp at h
  | cons a ts ih =>
    by_cases ha : p a = true
    · rw [List.find?_cons_of_pos _ ha] at h
      refine ⟨0, by simp, by simpa using Option.some_inj.mp h, ?_, by omega⟩
      rw [← Option.some_inj.mp h]; exact ha
    · rw [List.find?_cons_of_neg _ (by simpa using ha)] at h
      obtain ⟨j, hj, hget, hp, hmin⟩ := ih h
      refine ⟨j + 1, by simpa using Nat.succ_lt_succ hj, by simpa using hget, hp, ?_⟩
      intro k hk
      cases k with
      | zero => simpa using Bool.of_not_eq_true ha
      | succ k => simpa using hmin k (Nat.lt_of_succ_lt_succ hk)

theorem find?_none_all (p : QItem → Bool) (q : List QItem)
    (h : q.find? p = none) : ∀ t ∈ q, p t = false := by
  intro t ht
  have := List.find?_eq_none.mp h t ht
  exact Bool.of_not_eq_true this

theorem rotScanFrom_some (q : List QItem) (pos n : Nat) (t : QItem)
    (h : rotScanFrom q pos n = some t) :
    ∃ k, k < n ∧ t = q.getD ((pos + k) % q.length) defaultItem ∧ isAvailable t = true ∧
      ∀ m, m < k → isAvailable (q.getD ((pos + m) % q.length) defaultItem) = false := by
  induction n generalizing pos with
  | zero => simp [rotScanFrom] at h
  | succ n ih =>
    rw [rotScanFrom] at h
    by_cases ha : isAvailable (q.getD (pos % q.length) defaultItem) = true
    · simp only [ha, if_true] at h
      refine ⟨0, Nat.succ_pos n, ?_, ?_, by omega⟩
      · rw [← Option.some_inj.mp h]; simp
      · rw [← Option.some_inj.mp h]; exact ha
    · simp only [ha, if_false] at h
      obtain ⟨k, hk, hget, hav, hmin⟩ := ih (pos + 1) h
      have harith : pos + 1 + k = pos + (k + 1) := by omega
      refine ⟨k + 1, Nat.succ_lt_succ hk, by rw [← harith]; exact hget, hav, ?_⟩
      intro m hm
      cases m with
      | zero => simpa using Bool.of_not_eq_true ha
      | succ m =>
        have := hmin m (Nat.lt_of_succ_lt_succ hm)
        have harith2 : pos + 1 + m = pos + (m + 1) := by omega
        rw [harith2] at this
        exact this

theorem rotScanFrom_none (q : List QItem) (pos n : Nat)
    (h : rotScanFrom q pos n = none) :
    ∀ k, k < n → isAvailable (q.getD ((pos + k) % q.length) defaultItem) = false := by
  induction n generalizing pos with
  | zero => omega
  | succ n ih =>
    rw [rotScanFrom] at h
    by_cases ha : isAvailable (q.getD (pos % q.length) defaultItem) = true
    · simp only [ha, if_true] at h
      exact absurd h (by simp)
    · intro k hk
      cases k with
      | zero => simpa using Bool.of_not_eq_true ha
      | succ k =>
        have hrec := ih (pos + 1) (by simpa only [ha, if_false] using h) k
          (Nat.lt_of_succ_lt_succ hk)
        have harith : pos + 1 + k = pos + (k + 1) := by omega
        rwa [harith] at hrec

theorem rotScanFrom_head (q : List QItem) (pos n : Nat)
    (h : isAvailable (q.getD (pos % q.length) defaultItem) = true) :
    rotScanFrom q pos (n + 1) = some (q.getD (pos % q.length) defaultItem) := by
  rw [rotScanFrom]
  simp only [h, if_true]

theorem id_index_unique (q : List QItem) (hnd : (q.map QItem.id).Nodup)
    {i j : Nat} (hi : i < q.length) (hj : j < q.length)
    (h : (q.getD i defaultItem).id = (q.getD j defaultItem).id) : i = j := by
  have hi' : i < (q.map QItem.id).length := by simpa using hi
  have hj' : j < (q.map QItem.id).length := by simpa using hj
  have hmap : (q.map QItem.id)[i] = (q.map QItem.id)[j] := by
    rw [List.getElem_map, List.getElem_map]
    rw [getD_eq_get q i hi, getD_eq_get q j hj] at h
    simpa [List.get_eq_getElem] using h
  exact (hnd.getElem_inj_iff).mp hmap

theorem mod_succ_pred (i len : Nat) (h : i < len) :
    ((i + 1) % len + len - 1) % len = i := by
  rcases Nat.lt_or_ge (i + 1) len with h1 | h1
  · rw [Nat.mod_eq_of_lt h1]
    have h2 : i + 1 + len - 1 = i + len := by omega
    rw [h2, Nat.add_mod_right, Nat.mod_eq_of_lt h]
  · have h2 : i + 1 = len := by omega
    rw [h2, Nat.mod_self]
    have h3 : 0 + len - 1 = len - 1 := by omega
    rw [h3, Nat.mod_eq_of_lt (by omega)]
    omega

theorem updateFirst_at_index (tid : String) (f : QItem → QItem) (q : List QItem) (i : Nat)
    (h : indexOfId tid q = some i) :
    (updateFirst (fun it => it.id == tid) f q).getD i defaultItem =
      f (q.getD i defaultItem) ∧
    (∀ j, j ≠ i → (updateFirst (fun it => it.id == tid) f q).getD j defaultItem =
      q.getD j defaultItem) ∧
    (updateFirst (fun it => it.id == tid) f q).length = q.length := by
  induction q generalizing i with
  | nil => simp [indexOfId] at h
  | cons t ts ih =>
    by_cases ht : t.id = tid
    · simp only [indexOfId, beq_iff_eq, ht, if_true] at h
      obtain rfl := Option.some_inj.mp h
      refine ⟨by simp [updateFirst, ht], ?_, by simp [updateFirst, ht]⟩
      intro j hj
      cases j with
      | zero => omega
      | succ j => simp [updateFirst, ht]
    · simp only [indexOfId, beq_iff_eq, ht, if_false] at h
      obtain ⟨j, hj, rfl⟩ := Option.map_eq_some'.mp h
      obtain ⟨h1, h2, h3⟩ := ih j hj
      refine ⟨by simpa [updateFirst, ht] using h1, ?_, by simpa [updateFirst, ht] using h3⟩
      intro k hk
      cases k with
      | zero => simp [updateFirst, ht]
      | succ k =>
        have : k ≠ j := fun hkj => hk (by omega)
        simpa [updateFirst, ht] using h2 k this

theorem updateFirst_not_found (tid : String) (f : QItem → QItem) (q : List QItem)
    (h : indexOfId tid q = none) :
    updateFirst (fun it => it.id == tid) f q = q := by
  induction q with
  | nil => rfl
  | cons t ts ih =>
    by_cases ht : t.id = tid
    · simp [indexOfId, ht] at h
    · simp only [indexOfId, beq_iff_eq, ht, if_false] at h
      have hn : indexOfId tid ts = none := by
        cases hx : indexOfId tid ts with
        | none => rfl
        | some j => rw [hx] at h; simp at h
      simp [updateFirst, ht, ih hn]

theorem mapHas_erase (m : InFlight) (k : String) : mapHas (mapErase m k) k = false := by
  induction m with
  | nil => rfl
  | cons p ps ih =>
    by_cases hp : p.1 = k
    · simp [mapErase, mapHas, hp, ih]
    · simp [mapErase, mapHas, hp, ih]

theorem advance_next_queue_eq (r : Room) : (advance_to_next_track r).1.queue = r.queue := by
  unfold advance_to_next_track
  dsimp only
  repeat' split
  all_goals rfl

theorem set_first_queue_eq (r : Room) : (set_first_available_track r).1.queue = r.queue := by
  unfold set_first_available_track
  repeat' split
  all_goals rfl

theorem success_queue_eq (fl : InFlight) (r : Room) (qid ip u : String)
    (a : Option String) (d : Option ℚ) :
    (start_pending_download fl r qid ip (DlOutcome.success u a d)).2.1.queue =
      updateFirst (fun it => it.id == qid) (patchSuccess u a d) r.queue := by
  unfold start_pending_download
  dsimp only
  cases ht : r.state.track with
  | none =>
    simp only [ht]
    exact set_first_queue_eq _
  | some c => simp only [ht]

theorem handle_play_auth (role : Role) (now : ℚ) (r : Room)
    (h : is_host_or_mod role = true) :
    handle_play role now r =
      ({ r with state := { r.state with
            is_playing := true,
            start_time := some (now - r.state.position) } },
       [(Dest.all, Env.play (now - r.state.position))]) := by
  unfold handle_play
  rw [h]
  rfl

theorem handle_pause_playing (role : Role) (now : ℚ) (r : Room)
    (h : is_host_or_mod role = true) (hp : r.state.is_playing = true) :
    handle_pause role now r =
      ({ r with state := { r.state with
            position := now - r.state.start_time.getD 0,
            is_playing := false } },
       [(Dest.all, Env.pause (now - r.state.start_time.getD 0))]) := by
  unfold handle_pause
  rw [h, hp]
  rfl

theorem handle_pause_paused (role : Role) (now : ℚ) (r : Room)
    (h : is_host_or_mod role = true) (hp : r.state.is_playing = false) :
    handle_pause role now r = (r, [(Dest.all, Env.pause r.state.position)]) := by
  unfold handle_pause
  rw [h, hp]
  rfl

theorem handle_seek_auth (role : Role) (now x : ℚ) (r : Room)
    (h : is_host_or_mod role = true) :
    handle_seek role now x r =
      ({ r with state := { r.state with
            position := x,
            start_time := if r.state.is_playing then some (now - x)
                          else r.state.start_time } },
       [(Dest.all, Env.seek x (r.state.is_playing))]) := by
  unfold handle_seek
  rw [h]
  rfl

/-- C1 counterexample: the initial state satisfies I2, yet play at time 0
followed by pause at time 1 reaches a state with is_playing = false whose
start_time is still set (pause leaves start_time untouched), so I2 is not
preserved by the pause handler. -/
theorem C1_I2_not_preserved :
    I2 initialState ∧
    ¬ I2 ((handle_pause Role.host 1 (handle_play Role.host 0 rInitExample).1).1.state) := by
  constructor
  · intro _
    exact ⟨rfl, le_refl 0⟩
  · rw [handle_play_auth Role.host 0 rInitExample rfl]
    rw [handle_pause_playing Role.host 1 _ rfl rfl]
    intro h
    obtain ⟨hst, _⟩ := h rfl
    simp at hst

/-- C1 amended: I2 holds in the initial state; seek while paused sets
position to the client value, stays paused, and leaves start_time alone, and
it preserves I2 when that value is nonnegative; pause while paused preserves
I2; but pause from a playing state keeps the previous start_time (not none),
which is why I2 is not preserved by every handler. -/
theorem C1_I2_amended (role : Role) (now x s : ℚ) (r : Room)
    (hrole : is_host_or_mod role = true) :
    I2 initialState ∧
    (r.state.is_playing = false →
      (handle_seek role now x r).1.state.position = x ∧
      (handle_seek role now x r).1.state.is_playing = false ∧
      (handle_seek role now x r).1.state.start_time = r.state.start_time) ∧
    (r.state.is_playing = false → I2 r.state → 0 ≤ x →
      I2 (handle_seek role now x r).1.state) ∧
    (r.state.is_playing = false → I2 r.state →
      I2 (handle_pause role now r).1.state) ∧
    (r.state.is_playing = true → r.state.start_time = some s →
      (handle_pause role now r).1.state.start_time = some s) := by
  refine ⟨fun _ => ⟨rfl, le_refl 0⟩, ?_, ?_, ?_, ?_⟩
  · intro hp
    rw [handle_seek_auth role now x r hrole]
    refine ⟨rfl, hp, ?_⟩
    show (if r.state.is_playing then some (now - x) else r.state.start_time)
      = r.state.start_time
    rw [hp]
    rfl
  · intro hp hI2 hx
    rw [handle_seek_auth role now x r hrole]
    intro _
    refine ⟨?_, hx⟩
    show (if r.state.is_playing then some (now - x) else r.state.start_time) = none
    rw [hp]
    exact (hI2 hp).1
  · intro hp hI2
    rw [handle_pause_paused role now r hrole hp]
    exact hI2
  · intro hp hst
    rw [handle_pause_playing role now r hrole hp]
    exact hst

/-- Witness for C1: the amended statement instantiated at a concrete paused room. -/
theorem C1_I2_amended_witness :
    I2 initialState ∧
    (handle_seek Role.host 0 2 rPausedExample).1.state.position = 2 ∧
    (handle_seek Role.host 0 2 rPausedExample).1.state.is_playing = false ∧
    (handle_seek Role.host 0 2 rPausedExample).1.state.start_time
      = rPausedExample.state.start_time :=
  ⟨(C1_I2_amended Role.host 0 2 0 rPausedExample rfl).1,
   (C1_I2_amended Role.host 0 2 0 rPausedExample rfl).2.1 rfl⟩

/-- C2 counterexample: in a room whose position is 5, play at t = 10 followed
by pause at t + D with D = 3 yields position 8, not D = 3. -/
theorem C2_play_pause_counterexample :
    (handle_pause Role.host 13 (handle_play Role.host 10 rPos5Example).1).1.state.position
      = 8 ∧ (8 : ℚ) ≠ 3 := by
  constructor
  · rw [handle_play_auth Role.host 10 rPos5Example rfl]
    rw [handle_pause_playing Role.host 13 _ rfl rfl]
    show (13 : ℚ) - (Option.some ((10 : ℚ) - rPos5Example.state.position)).getD 0 = 8
    simp [rPos5Example, initialState]
    norm_num
  · norm_num

/-- C2 amended: play sets is_playing and start_time = now - position; pause
while playing sets position = now - start_time and clears is_playing; hence
play at t then pause at t + D yields position p0 + D where p0 was the
position at play time (D exactly when p0 = 0), and a subsequent play at tp
yields start_time = tp - (p0 + D). -/
theorem C2_play_pause_spec (role : Role) (r : Room) (t D tp now s : ℚ)
    (hrole : is_host_or_mod role = true) :
    (handle_play role t r).1.state.is_playing = true ∧
    (handle_play role t r).1.state.start_time = some (t - r.state.position) ∧
    (r.state.is_playing = true → r.state.start_time = some s →
      (handle_pause role now r).1.state.position = now - s ∧
      (handle_pause role now r).1.state.is_playing = false) ∧
    (handle_pause role (t + D) (handle_play role t r).1).1.state.position
      = r.state.position + D ∧
    (handle_pause role (t + D) (handle_play role t r).1).1.state.is_playing = false ∧
    (handle_play role tp
        (handle_pause role (t + D) (handle_play role t r).1).1).1.state.start_time
      = some (tp - (r.state.position + D)) := by
  have hplay := handle_play_auth role t r hrole
  have hpos : (handle_pause role (t + D) (handle_play role t r).1).1.state.position
      = r.state.position + D := by
    rw [hplay]
    rw [handle_pause_playing role (t + D) _ hrole rfl]
    show t + D - (Option.some (t - r.state.position)).getD 0 = r.state.position + D
    rw [Option.getD_some]
    ring
  refine ⟨by rw [hplay], by rw [hplay], ?_, hpos, ?_, ?_⟩
  · intro hp hst
    rw [handle_pause_playing role now r hrole hp, hst]
    exact ⟨rfl, rfl⟩
  · rw [hplay]
    rw [handle_pause_playing role (t + D) _ hrole rfl]
  · rw [handle_play_auth role tp _ hrole, hpos]

/-- Witness for C2: play at 10 then pause at 10 + 3 from position 0, then play at 20. -/
theorem C2_play_pause_spec_witness :
    (handle_pause Role.host (10 + 3) (handle_play Role.host 10 rPos0Example).1).1.state.position
      = rPos0Example.state.position + 3 ∧
    (handle_play Role.host 20
        (handle_pause Role.host (10 + 3) (handle_play Role.host 10 rPos0Example).1).1).1.state.start_time
      = some (20 - (rPos0Example.state.position + 3)) :=
  ⟨(C2_play_pause_spec Role.host rPos0Example 10 3 20 0 0 rfl).2.2.2.1,
   (C2_play_pause_spec Role.host rPos0Example 10 3 20 0 0 rfl).2.2.2.2.2⟩

/-- C3: evaluating Room.remove_user at the failing input.  Host A leaves a
room that still holds the connected moderator B: B is promoted to host and a
roster broadcast goes out, but no user_info envelope is sent to B, because
the send block sits inside the no-moderator fallback branch.  When B is a
listener instead, the promotion does send user_info followed by the roster
broadcast, as the claim describes. -/
theorem C3_moderator_promotion_drops_user_info :
    (remove_user ruModExample 0).1.host = some 1 ∧
    (remove_user ruModExample 0).1.users = [{ modB with role := Role.host }] ∧
    (remove_user ruModExample 0).2 = [(Dest.all, Env.users_sync [("B", Role.host)])] ∧
    (remove_user ruLisExample 0).2 =
      [(Dest.conn 1, Env.user_info "B" Role.host true true),
       (Dest.all, Env.users_sync [("B", Role.host)])] := by
  refine ⟨?_, ?_, ?_, ?_⟩ <;> rfl

/-- C4: next-track selects the successor by a rotating scan from
(current_index + 1) mod len under the availability filter; with no current
track, or a current track missing from the queue, it scans from index 0; on
selection it resets position to 0, pauses, and broadcasts next-track. -/
theorem C4_advance_next_spec (r : Room) :
    (∀ c i, r.state.track = some c → indexOfId c.id r.queue = some i →
      (∃ t, firstAvailableRot r.queue (i + 1) t ∧ advanceInstalls r t) ∨
      ((∀ k, k < r.queue.length →
          isAvailable (r.queue.getD ((i + 1 + k) % r.queue.length) defaultItem) = false) ∧
        advance_to_next_track r = (r, []))) ∧
    (r.state.track = none →
      (∃ t, firstAvailableFromStart r.queue t ∧ advanceInstalls r t) ∨
      ((∀ t ∈ r.queue, isAvailable t = false) ∧ advance_to_next_track r = (r, []))) ∧
    (∀ c, r.state.track = some c → indexOfId c.id r.queue = none →
      (∃ t, firstAvailableFromStart r.queue t ∧ advanceInstalls r t) ∨
      ((∀ t ∈ r.queue, isAvailable t = false) ∧ advance_to_next_track r = (r, []))) := by
  refine ⟨?_, ?_, ?_⟩
  · intro c i hc hi
    cases hscan : rotScanFrom r.queue (i + 1) r.queue.length with
    | some t =>
      left
      obtain ⟨k, hk, ht, hav, hmin⟩ := rotScanFrom_some r.queue (i + 1) r.queue.length t hscan
      refine ⟨t, ⟨k, hk, ht, hav, hmin⟩, ?_⟩
      unfold advanceInstalls advance_to_next_track
      rw [hc]
      simp only [hi, hscan]
    | none =>
      right
      refine ⟨rotScanFrom_none r.queue (i + 1) r.queue.length hscan, ?_⟩
      unfold advance_to_next_track
      rw [hc]
      simp only [hi, hscan]
  · intro hc
    cases hq : r.queue.isEmpty
    · cases hf : r.queue.find? isAvailable with
      | some t =>
        left
        obtain ⟨j, hj, hget, hp, hmin⟩ := find?_first isAvailable r.queue t hf
        refine ⟨t, ⟨j, hj, hget.symm, hp, hmin⟩, ?_⟩
        unfold advanceInstalls advance_to_next_track
        rw [hc]
        simp only [hq, hf, Bool.false_eq_true, if_false]
      | none =>
        right
        refine ⟨find?_none_all isAvailable r.queue hf, ?_⟩
        unfold advance_to_next_track
        rw [hc]
        simp only [hq, hf, Bool.false_eq_true, if_false]
    · right
      have hnil : r.queue = [] := List.isEmpty_iff.mp hq
      refine ⟨by rw [hnil]; simp, ?_⟩
      unfold advance_to_next_track
      rw [hc]
      simp only [hq, if_true]
  · intro c hc hi
    cases hf : r.queue.find? isAvailable with
    | some t =>
      left
      obtain ⟨j, hj, hget, hp, hmin⟩ := find?_first isAvailable r.queue t hf
      refine ⟨t, ⟨j, hj, hget.symm, hp, hmin⟩, ?_⟩
      unfold advanceInstalls advance_to_next_track
      rw [hc]
      simp only [hi, hf]
    | none =>
      right
      refine ⟨find?_none_all isAvailable r.queue hf, ?_⟩
      unfold advance_to_next_track
      rw [hc]
      simp only [hi, hf]

/-- Witness for C4: the rotating scan applied to a concrete two-item queue. -/
theorem C4_advance_next_witness :
    ∃ t, firstAvailableRot rNextExample.queue (0 + 1) t ∧ advanceInstalls rNextExample t :=
  ((C4_advance_next_spec rNextExample).1 trkAv 0 rfl (by decide)).resolve_right (by
    intro h
    have h1 := h.1 1 (by decide)
    simp [rNextExample, trkAv, trkPend, isAvailable, defaultItem] at h1)

/-- C5 counterexample: queue [a (available), b (pending)], current track a.
next-track skips the pending b and wraps back to a; previous-track then wraps
one position back to b, so the round trip ends at b instead of a. -/
theorem C5_next_prev_counterexample :
    rNextExample.state.track = some trkAv ∧
    trkAv ∈ rNextExample.queue ∧
    ((advance_to_previous_track (advance_to_next_track rNextExample).1).1).state.track
      = some trkPend ∧
    trkPend ≠ trkAv := by
  refine ⟨rfl, by simp [rNextExample], ?_, by simp [trkPend, trkAv, defaultItem]⟩
  simp [advance_to_next_track, advance_to_previous_track, rNextExample, indexOfId,
        rotScanFrom, isAvailable, trkAv, trkPend, defaultItem]

/-- C5 amended: when the current track is an element of the queue, every queue
item passes the availability filter, and queue ids are distinct, next-track
followed by previous-track restores the starting current track. -/
theorem C5_next_prev_roundtrip (r : Room) (c : QItem)
    (hc : r.state.track = some c) (hmem : c ∈ r.queue)
    (hav : ∀ t ∈ r.queue, isAvailable t = true)
    (hnd : (r.queue.map QItem.id).Nodup) :
    ((advance_to_previous_track (advance_to_next_track r).1).1).state.track = some c := by
  obtain ⟨i, hi⟩ := indexOfId_found c.id r.queue c hmem rfl
  obtain ⟨hilen, hiid, _⟩ := indexOfId_some c.id r.queue i hi
  have hlenpos : 0 < r.queue.length := by omega
  -- the item at the first index carrying c.id is c itself
  obtain ⟨⟨jc, hjc⟩, hjeq⟩ := List.mem_iff_get.mp hmem
  have hgetjc : r.queue.getD jc defaultItem = c := by rw [getD_eq_get r.queue jc hjc, hjeq]
  have hij : i = jc := id_index_unique r.queue hnd hilen hjc (by rw [hiid, hgetjc])
  have hgeti : r.queue.getD i defaultItem = c := by rw [hij, hgetjc]
  -- next-track takes the immediate successor since everything is available
  set j := (i + 1) % r.queue.length with hjdef
  have hjlen : j < r.queue.length := Nat.mod_lt _ hlenpos
  have hjav : isAvailable (r.queue.getD j defaultItem) = true :=
    hav _ (getD_mem r.queue j hjlen)
  obtain ⟨n, hn⟩ : ∃ n, r.queue.length = n + 1 :=
    ⟨r.queue.length - 1, by omega⟩
  have hscan : rotScanFrom r.queue (i + 1) r.queue.length =
      some (r.queue.getD j defaultItem) := by
    rw [hn]
    exact rotScanFrom_head r.queue (i + 1) n hjav
  set t0 := r.queue.getD j defaultItem with ht0
  have hnext : (advance_to_next_track r).1 =
      { r with state := { track := some t0, is_playing := false, start_time := none,
                          position := 0, duration := t0.duration } } := by
    unfold advance_to_next_track
    rw [hc]
    simp only [hi, hscan]
  -- previous-track finds t0 exactly at index j
  obtain ⟨i2, hi2⟩ := indexOfId_found t0.id r.queue t0 (getD_mem r.queue j hjlen) rfl
  obtain ⟨hi2len, hi2id, _⟩ := indexOfId_some t0.id r.queue i2 hi2
  have hi2j : i2 = j := id_index_unique r.queue hnd hi2len hjlen (by rw [hi2id])
  rw [hnext]
  unfold advance_to_previous_track
  simp only [hi2, hi2j]
  have harith : (j + r.queue.length - 1) % r.queue.length = i := by
    rw [hjdef]
    exact mod_succ_pred i r.queue.length hilen
  simp only [harith, hgeti]

/-- Witness for C5: the round trip on an all-available two-item queue. -/
theorem C5_next_prev_roundtrip_witness :
    ((advance_to_previous_track (advance_to_next_track rAllAvailExample).1).1).state.track
      = some trkAv :=
  C5_next_prev_roundtrip rAllAvailExample trkAv rfl (by simp [rAllAvailExample])
    (by decide) (by decide)

/-- C6 counterexample: two distinct queue items share id "x";
delete_item("x") removes both, so the result is not the queue with only the
first match removed. -/
theorem C6_delete_removes_all :
    (handle_delete_item Role.host "x" rDupExample).1.queue = [] ∧
    ([] : List QItem) ≠ [dupX2] := by
  constructor
  · simp [handle_delete_item, rDupExample, dupX1, dupX2, initialState, is_host_or_mod]
  · simp

/-- C6 amended: delete_item removes every queue item whose id matches (the
first match in particular; with distinct ids exactly one); if the deleted id
was the current track's, a new current track is the first available item of
the remaining queue, and when none is available the track is cleared and a
null set_track with is_playing = false is broadcast after the queue_sync. -/
theorem C6_delete_item_spec (role : Role) (item_id : String) (r : Room)
    (hrole : is_host_or_mod role = true) (hid : item_id ≠ "") :
    (∀ t, t ∈ (handle_delete_item role item_id r).1.queue ↔
        (t ∈ r.queue ∧ t.id ≠ item_id)) ∧
    List.Sublist (handle_delete_item role item_id r).1.queue r.queue ∧
    (∀ c, r.state.track = some c → c.id = item_id →
      ((r.queue.filter (fun it => it.id != item_id)).filter isAvailable ≠ [] →
        ∃ t, firstAvailableFromStart (r.queue.filter (fun it => it.id != item_id)) t ∧
          (handle_delete_item role item_id r).1.state.track = some t ∧
          (handle_delete_item role item_id r).1.state.position = 0 ∧
          (handle_delete_item role item_id r).1.state.is_playing = false) ∧
      ((r.queue.filter (fun it => it.id != item_id)).filter isAvailable = [] →
        (handle_delete_item role item_id r).1.state.track = none ∧
        (handle_delete_item role item_id r).1.state.is_playing = false ∧
        (handle_delete_item role item_id r).2 =
          [(Dest.all, Env.queue_sync (r.queue.filter (fun it => it.id != item_id))),
           (Dest.all, Env.set_track none false)])) := by
  have hqueue : (handle_delete_item role item_id r).1.queue =
      r.queue.filter (fun it => it.id != item_id) := by
    unfold handle_delete_item
    rw [hrole]
    simp only [Bool.not_true, Bool.false_eq_true, if_false]
    rw [if_neg (by simpa using hid)]
    split
    · split
      · rfl
      · exact advance_next_queue_eq _
    · rfl
  refine ⟨?_, ?_, ?_⟩
  · intro t
    rw [hqueue, List.mem_filter]
    exact and_congr_right fun _ => bne_iff_ne
  · rw [hqueue]
    exact List.filter_sublist r.queue
  · intro c hc hcid
    have hcur : (match r.state.track with
        | some c => c.id == item_id
        | none => false) = true := by
      rw [hc]; simpa using hcid
    constructor
    · intro hne
      have hemp : ((r.queue.filter (fun it => it.id != item_id)).filter isAvailable).isEmpty
          = false := by
        cases hx : ((r.queue.filter (fun it => it.id != item_id)).filter isAvailable).isEmpty
        · rfl
        · exact absurd (List.isEmpty_iff.mp hx) hne
      -- the deleted id no longer occurs, so the advance falls through to the
      -- from-start scan
      have hnotin : indexOfId c.id (r.queue.filter (fun it => it.id != item_id)) = none := by
        apply indexOfId_not_found
        intro t ht
        have := (List.mem_filter.mp ht).2
        rw [hcid]
        exact bne_iff_ne.mp this
      have hfind : ∃ t, (r.queue.filter (fun it => it.id != item_id)).find? isAvailable
          = some t := by
        cases hf : (r.queue.filter (fun it => it.id != item_id)).find? isAvailable with
        | some t => exact ⟨t, rfl⟩
        | none =>
          exfalso
          apply hne
          rw [List.filter_eq_nil_iff]
          intro a ha
          have hfa := find?_none_all isAvailable
            (r.queue.filter (fun it => it.id != item_id)) hf a ha
          simp [hfa]
      obtain ⟨t, hf⟩ := hfind
      obtain ⟨j, hj, hget, hp, hmin⟩ := find?_first isAvailable _ t hf
      refine ⟨t, ⟨j, hj, hget.symm, hp, hmin⟩, ?_⟩
      unfold handle_delete_item
      rw [hrole]
      simp only [Bool.not_true, Bool.false_eq_true, if_false]
      rw [if_neg (by simpa using hid)]
      rw [if_pos hcur, if_neg (by rw [hemp]; simp)]
      unfold advance_to_next_track
      simp only [hc, hnotin, hf]
      refine ⟨?_, ?_, ?_⟩ <;> trivial
    · intro hemp'
      have hemp : ((r.queue.filter (fun it => it.id != item_id)).filter isAvailable).isEmpty
          = true := by rw [hemp']; rfl
      unfold handle_delete_item
      rw [hrole]
      simp only [Bool.not_true, Bool.false_eq_true, if_false]
      rw [if_neg (by simpa using hid)]
      rw [if_pos hcur, if_pos hemp]
      refine ⟨?_, ?_, ?_⟩ <;> trivial

/-- Witness for C6: deleting id "a" from a concrete two-item queue. -/
theorem C6_delete_item_spec_witness :
    (trkBv ∈ (handle_delete_item Role.host "a" rAllAvailExample).1.queue ↔
      (trkBv ∈ rAllAvailExample.queue ∧ trkBv.id ≠ "a")) ∧
    List.Sublist (handle_delete_item Role.host "a" rAllAvailExample).1.queue
      rAllAvailExample.queue :=
  ⟨(C6_delete_item_spec Role.host "a" rAllAvailExample rfl (by decide)).1 trkBv,
   (C6_delete_item_spec Role.host "a" rAllAvailExample rfl (by decide)).2.1⟩

/-- C7 counterexample: a success result that reports duration 0 leaves the
stored duration unchanged (the source guards the update with Python
truthiness), while the claim's formula would store max(1, 0 - 1.25) = 1. -/
theorem C7_zero_duration_counterexample :
    ((start_pending_download [] rPendExample "p" "ip"
        (DlOutcome.success "u" none (some 0))).2.1.queue.getD 0 defaultItem).duration
      = some 99 ∧ some (99 : ℚ) ≠ some 1 := by
  constructor
  · show (patchSuccess "u" none (some 0) pendP).duration = some 99
    simp [patchSuccess, pendP, defaultItem]
  · intro h
    rw [Option.some_inj] at h
    norm_num at h

/-- C7 amended: on every terminal outcome the sender's in-flight entry is
released; on success the item located by id gets its url overwritten,
isPending cleared, video_id removed, and its duration set to
max(1, reported - 1.25) when a nonzero duration is reported (a missing
report leaves the stored duration unchanged); on timeout or failure the url
is cleared and isPending cleared, with a queue_sync broadcast; an id no
longer present leaves the queue unchanged. -/
theorem C7_ingest_terminal_spec :
    (∀ (fl : InFlight) (r : Room) (qid ip : String) (outcome : DlOutcome),
      mapHas (start_pending_download fl r qid ip outcome).1 ip = false) ∧
    (∀ (fl : InFlight) (r : Room) (qid ip u : String) (a : Option String)
        (d : Option ℚ) (i : Nat), indexOfId qid r.queue = some i →
      ((start_pending_download fl r qid ip (DlOutcome.success u a d)).2.1.queue.getD i
          defaultItem).url = u ∧
      ((start_pending_download fl r qid ip (DlOutcome.success u a d)).2.1.queue.getD i
          defaultItem).isPending = false ∧
      ((start_pending_download fl r qid ip (DlOutcome.success u a d)).2.1.queue.getD i
          defaultItem).video_id = none ∧
      (∀ x : ℚ, d = some x → (x == 0) = false →
        ((start_pending_download fl r qid ip (DlOutcome.success u a d)).2.1.queue.getD i
            defaultItem).duration = some (max 1 (x - 5/4))) ∧
      (d = none →
        ((start_pending_download fl r qid ip (DlOutcome.success u a d)).2.1.queue.getD i
            defaultItem).duration = (r.queue.getD i defaultItem).duration) ∧
      (∀ j, j ≠ i →
        (start_pending_download fl r qid ip (DlOutcome.success u a d)).2.1.queue.getD j
            defaultItem = r.queue.getD j defaultItem)) ∧
    (∀ (fl : InFlight) (r : Room) (qid ip : String) (i : Nat) (outcome : DlOutcome),
      indexOfId qid r.queue = some i →
      (outcome = DlOutcome.timeout ∨ outcome = DlOutcome.failure) →
      ((start_pending_download fl r qid ip outcome).2.1.queue.getD i defaultItem).url
        = "" ∧
      ((start_pending_download fl r qid ip outcome).2.1.queue.getD i
          defaultItem).isPending = false ∧
      (∀ j, j ≠ i →
        (start_pending_download fl r qid ip outcome).2.1.queue.getD j defaultItem
          = r.queue.getD j defaultItem) ∧
      (start_pending_download fl r qid ip outcome).2.2 =
        [(Dest.all,
          Env.queue_sync (start_pending_download fl r qid ip outcome).2.1.queue)]) ∧
    (∀ (fl : InFlight) (r : Room) (qid ip u : String) (a : Option String)
        (d : Option ℚ), indexOfId qid r.queue = none →
      (start_pending_download fl r qid ip (DlOutcome.success u a d)).2.1.queue
        = r.queue) := by
  refine ⟨?_, ?_, ?_, ?_⟩
  · intro fl r qid ip outcome
    show mapHas (mapErase (mapSet fl ip qid) ip) ip = false
    exact mapHas_erase _ _
  · intro fl r qid ip u a d i h
    have hq := success_queue_eq fl r qid ip u a d
    obtain ⟨h1, h2, _⟩ :=
      updateFirst_at_index qid (patchSuccess u a d) r.queue i h
    rw [hq, h1]
    refine ⟨rfl, rfl, rfl, ?_, ?_, ?_⟩
    · intro x hx hxz
      subst hx
      show (match some x with
        | some y => if y != 0 then some (max 1 (y - 5/4))
                    else (r.queue.getD i defaultItem).duration
        | none => (r.queue.getD i defaultItem).duration) = some (max 1 (x - 5/4))
      simp [bne, hxz]
    · intro hd
      subst hd
      rfl
    · intro j hj
      exact h2 j hj
  · intro fl r qid ip i outcome h hout
    have hcase : ∀ (res : Room × List Msg),
        res = ({ r with queue := updateFirst (fun it => it.id == qid) patchFailed r.queue },
               [(Dest.all,
                 Env.queue_sync (updateFirst (fun it => it.id == qid) patchFailed r.queue))]) →
        (res.1.queue.getD i defaultItem).url = "" ∧
        (res.1.queue.getD i defaultItem).isPending = false ∧
        (∀ j, j ≠ i → res.1.queue.getD j defaultItem = r.queue.getD j defaultItem) ∧
        res.2 = [(Dest.all, Env.queue_sync res.1.queue)] := by
      intro res hres
      subst hres
      obtain ⟨h1, h2, _⟩ := updateFirst_at_index qid patchFailed r.queue i h
      refine ⟨?_, ?_, ?_, rfl⟩
      · show ((updateFirst (fun it => it.id == qid) patchFailed r.queue).getD i
          defaultItem).url = ""
        rw [h1]
        rfl
      · show ((updateFirst (fun it => it.id == qid) patchFailed r.queue).getD i
          defaultItem).isPending = false
        rw [h1]
        rfl
      · intro j hj
        exact h2 j hj
    rcases hout with rfl | rfl
    · exact hcase _ rfl
    · exact hcase _ rfl
  · intro fl r qid ip u a d h
    rw [success_queue_eq]
    exact updateFirst_not_found qid _ r.queue h

/-- Witness for C7: a successful ingest with reported duration 5 on a concrete room. -/
theorem C7_ingest_terminal_witness :
    ((start_pending_download [] rPendExample "p" "ip"
        (DlOutcome.success "u" none (some 5))).2.1.queue.getD 0 defaultItem).url = "u" ∧
    ((start_pending_download [] rPendExample "p" "ip"
        (DlOutcome.success "u" none (some 5))).2.1.queue.getD 0 defaultItem).duration
      = some (max 1 ((5 : ℚ) - 5/4)) ∧
    mapHas (start_pending_download [] rPendExample "p" "ip"
        (DlOutcome.success "u" none (some 5))).1 "ip" = false :=
  ⟨(C7_ingest_terminal_spec.2.1 [] rPendExample "p" "ip" "u" none (some 5) 0
      (by decide)).1,
   (C7_ingest_terminal_spec.2.1 [] rPendExample "p" "ip" "u" none (some 5) 0
      (by decide)).2.2.2.1 5 rfl (by decide),
   C7_ingest_terminal_spec.1 [] rPendExample "p" "ip" (DlOutcome.success "u" none (some 5))⟩

/-- C8: a listener issuing play (or any other playback/queue command) gets an
error envelope addressed to the sender alone; no broadcast happens and the
room is unchanged. -/
theorem C8_listener_rejected (now x : ℚ) (r : Room) (iid dir : String) :
    handle_play Role.listener now r =
      (r, [(Dest.sender, Env.error "Only hosts and moderators can control playback")]) ∧
    handle_pause Role.listener now r =
      (r, [(Dest.sender, Env.error "Only hosts and moderators can control playback")]) ∧
    handle_seek Role.listener now x r =
      (r, [(Dest.sender, Env.error "Only hosts and moderators can control playback")]) ∧
    handle_next_track Role.listener r =
      (r, [(Dest.sender, Env.error "Only hosts and moderators can skip tracks")]) ∧
    handle_previous_track Role.listener r =
      (r, [(Dest.sender, Env.error "Only hosts and moderators can skip tracks")]) ∧
    handle_delete_item Role.listener iid r =
      (r, [(Dest.sender, Env.error "Only hosts and moderators can delete items")]) ∧
    handle_reorder_item Role.listener iid dir r =
      (r, [(Dest.sender, Env.error "Only hosts and moderators can reorder items")]) :=
  ⟨rfl, rfl, rfl, rfl, rfl, rfl, rfl⟩

/-- C9: pause while already paused changes no state field and still
broadcasts a pause envelope carrying the current position. -/
theorem C9_pause_while_paused (role : Role) (now : ℚ) (r : Room)
    (hrole : is_host_or_mod role = true) (hp : r.state.is_playing = false) :
    handle_pause role now r = (r, [(Dest.all, Env.pause r.state.position)]) := by
  unfold handle_pause
  rw [hrole]
  simp [hp]

/-- Witness for C9: pause at time 0 in a concrete paused room with position 7. -/
theorem C9_pause_while_paused_witness :
    handle_pause Role.host 0 rPausedExample =
      (rPausedExample, [(Dest.all, Env.pause 7)]) :=
  C9_pause_while_paused Role.host 0 rPausedExample rfl rfl

/-- C10: reorder_item with an id present in the queue but an out-of-range
direction (up at index 0, down at the last index) leaves the queue unchanged
yet still broadcasts queue_sync; an id not present changes nothing and sends
nothing. -/
theorem C10_reorder_spec (role : Role) (r : Room) (item_id direction : String) (i : Nat)
    (hrole : is_host_or_mod role = true) (hid : item_id ≠ "") :
    (indexOfId item_id r.queue = some 0 →
      handle_reorder_item role item_id "up" r = (r, [(Dest.all, Env.queue_sync r.queue)])) ∧
    (indexOfId item_id r.queue = some i → i + 1 = r.queue.length →
      handle_reorder_item role item_id "down" r = (r, [(Dest.all, Env.queue_sync r.queue)])) ∧
    (indexOfId item_id r.queue = none → direction ≠ "" →
      handle_reorder_item role item_id direction r = (r, [])) := by
  refine ⟨?_, ?_, ?_⟩
  · intro h0
    simp [handle_reorder_item, hrole, hid, h0]
  · intro hi hlast
    have hdec : decide (i < r.queue.length - 1) = false := by
      rw [decide_eq_false_iff_not]; omega
    simp [handle_reorder_item, hrole, hid, hi, hdec]
  · intro hn hdir
    simp [handle_reorder_item, hrole, hid, hn, hdir]

/-- Witness for C10: moving the first item up in a concrete two-item queue. -/
theorem C10_reorder_spec_witness :
    handle_reorder_item Role.host "a" "up" rAllAvailExample =
      (rAllAvailExample, [(Dest.all, Env.queue_sync rAllAvailExample.queue)]) :=
  (C10_reorder_spec Role.host rAllAvailExample "a" "up" 0 rfl (by decide)).1 (by decide)
